import Mathlib

/-!
Verification of the built-in expression function library of
`dekimsey/actionlint-interpreter` (`expr_funcs.go`): the value model,
the function registry, and the five built-ins `contains`, `startswith`,
`endswith`, `join`, `fromjson`, shallowly embedded in Lean 4.

Go panics are embedded as `Except.error`; everything else is pure.
The collaborators that live outside `expr_funcs.go` (`Primitive`,
`CoerceString`, `CoerceSlice`, `Equals`, `getExprType`, the evaluator's
arity validation, and Go's `encoding/json` decoder) are modelled from
the specification, as marked on each definition.
-/

namespace ActionlintInterp

/-- The static type tags of the value model (`actionlint.NullType`,
`BoolType`, `NumberType`, `StringType`, `ArrayType`, `ObjectType`). -/
inductive TypeTag where
  | null
  | bool
  | number
  | string
  | array
  | object
deriving DecidableEq

/-- The dynamic payload of a value (Go `any` after JSON decoding:
`nil`, `bool`, `float64`, `string`, `[]any`, `map[string]any`).
Numbers are modelled as integers; no claim depends on fractional or
exponent forms. -/
inductive RawValue where
  | null
  | bool (b : Bool)
  | num (n : Int)
  | str (s : String)
  | arr (elems : List RawValue)
  | obj (fields : List (String × RawValue))

/-- `EvaluationResult`: dynamic payload (`Value`) paired with a static
type tag (`Type`), as in the Go struct. -/
structure EvaluationResult where
  value : RawValue
  type : TypeTag

/-- Modelled from the spec: a Value is primitive iff its type tag is
Null, Bool, Number or String (i.e. not Array and not Object). -/
def EvaluationResult.primitive (v : EvaluationResult) : Bool :=
  match v.type with
  | .array => false
  | .object => false
  | _ => true

/-- Modelled from the spec: `getExprType` classifies a raw decoded
payload into a type tag (array, object, string, number, bool; `null`
is mapped to the Null tag for totality). -/
def getExprType : RawValue → TypeTag
  | .null => .null
  | .bool _ => .bool
  | .num _ => .number
  | .str _ => .string
  | .arr _ => .array
  | .obj _ => .object

/-- Modelled from the spec: the canonical string projection of a raw
payload — null as the empty string, booleans as lowercase `true`/`false`,
numbers per the numeric-to-string rule (integers print as decimal
numerals), strings as themselves, arrays and objects per the source
language's documented stringification (their type names). -/
def coerceRawString : RawValue → String
  | .null => ""
  | .bool b => if b then "true" else "false"
  | .num n => toString n
  | .str s => s
  | .arr _ => "Array"
  | .obj _ => "Object"

/-- Modelled from the spec: `CoerceString` on a Value projects its
payload to a string and is total. -/
def EvaluationResult.coerceString (v : EvaluationResult) : String :=
  coerceRawString v.value

/-- Modelled from the spec: `Equals` is the cross-type equality used by
containment checks; it need only be well-defined for
primitive-to-primitive comparisons, where it compares payloads. -/
def rawEq : RawValue → RawValue → Bool
  | .null, .null => true
  | .bool a, .bool b => a == b
  | .num a, .num b => a == b
  | .str a, .str b => a == b
  | _, _ => false

/-- Modelled from the spec: `Equals` on Values compares the payloads. -/
def EvaluationResult.equals (a b : EvaluationResult) : Bool :=
  rawEq a.value b.value

/-- Modelled from the spec: `CoerceSlice` returns the element sequence
(each element re-tagged via `getExprType`) when the Value is
array-typed with an array payload, and is otherwise absent (`none`,
a sentinel, not a failure). -/
def EvaluationResult.coerceSlice (v : EvaluationResult) :
    Option (List EvaluationResult) :=
  match v.type, v.value with
  | .array, .arr l => some (l.map fun a => ⟨a, getExprType a⟩)
  | _, _ => none

/-! ### Go string helpers (`strings` package) -/

/-- Go `strings.ToLower` (over the ASCII range the claims exercise),
character by character. -/
def lowerStr (s : String) : String :=
  String.mk (s.toList.map Char.toLower)

/-- Occurrence of `needle` as a contiguous run inside `hay`. -/
def listInfixOf (needle : List Char) : List Char → Bool
  | [] => needle.isEmpty
  | c :: t => List.isPrefixOf needle (c :: t) || listInfixOf needle t

/-- Go `strings.Contains s sub`: `sub` occurs in `s` as a substring. -/
def goContainsStr (s sub : String) : Bool :=
  listInfixOf sub.toList s.toList

/-- Go `strings.HasPrefix s p` (named to avoid notation keywords). -/
def strStarts (s p : String) : Bool :=
  List.isPrefixOf p.toList s.toList

/-- Go `strings.HasSuffix s p`. -/
def strEnds (s p : String) : Bool :=
  List.isSuffixOf p.toList s.toList

/-! ### A model of Go `encoding/json` decoding into `any`

Modelled from the spec: `fromjson` "decodes a JSON document from the
string-coerced first argument". The decoder below covers the shapes the
claims exercise — `null`, booleans, integer numerals, strings with
simple escapes, arrays and objects, with surrounding whitespace —
returning `none` where `json.Unmarshal` reports an error. -/

/-- Opening curly brace (kept out of character-literal position). -/
def lbrace : Char := Char.ofNat 123

/-- Closing curly brace. -/
def rbrace : Char := Char.ofNat 125

/-- Drop leading JSON whitespace. -/
def skipWs : List Char → List Char
  | [] => []
  | c :: cs =>
    if c = ' ' || c = '\n' || c = '\t' || c = '\r' then skipWs cs
    else c :: cs

/-- Strip an expected literal from the front of the input. -/
def dropLit : List Char → List Char → Option (List Char)
  | [], cs => some cs
  | l :: ls, c :: cs => if l = c then dropLit ls cs else none
  | _ :: _, [] => none

/-- One-character JSON string escapes (`\u` forms are outside the
modelled subset). -/
def unescChar (c : Char) : Option Char :=
  if c = '"' then some '"'
  else if c = '\\' then some '\\'
  else if c = '/' then some '/'
  else if c = 'n' then some '\n'
  else if c = 't' then some '\t'
  else if c = 'r' then some '\r'
  else if c = 'b' then some (Char.ofNat 8)
  else if c = 'f' then some (Char.ofNat 12)
  else none

/-- Read a JSON string body after the opening quote; returns the
decoded string and the rest of the input. -/
def parseStrAux (acc : List Char) : List Char → Option (String × List Char)
  | [] => none
  | c :: cs =>
    if c = '"' then some (String.mk acc.reverse, cs)
    else if c = '\\' then
      match cs with
      | [] => none
      | e :: cs2 =>
        match unescChar e with
        | some ch => parseStrAux (ch :: acc) cs2
        | none => none
    else parseStrAux (c :: acc) cs

/-- Decimal value of a digit run. -/
def digitsVal (ds : List Char) : Nat :=
  ds.foldl (fun acc c => acc * 10 + (c.toNat - Char.toNat '0')) 0

/-- Read an (optionally signed) integer numeral. -/
def parseNum (cs : List Char) : Option (RawValue × List Char) :=
  let (neg, cs1) := match cs with
    | '-' :: r => (true, r)
    | _ => (false, cs)
  let ds := cs1.takeWhile Char.isDigit
  let rest := cs1.dropWhile Char.isDigit
  if ds.isEmpty then none
  else
    let v : Int := (digitsVal ds : Nat)
    some (.num (if neg then -v else v), rest)

mutual

/-- Read one JSON value (fuelled recursion; `jsonDecode` supplies
enough fuel for any input). -/
def parseVal : Nat → List Char → Option (RawValue × List Char)
  | 0, _ => none
  | Nat.succ fuel, cs0 =>
    let cs := skipWs cs0
    match cs with
    | [] => none
    | c :: rest =>
      if c = '"' then
        (parseStrAux [] rest).map fun p => (.str p.1, p.2)
      else if c = '[' then
        let cs2 := skipWs rest
        match cs2 with
        | ']' :: r => some (.arr [], r)
        | _ => (parseElems fuel cs2).map fun p => (.arr p.1, p.2)
      else if c = lbrace then
        let cs2 := skipWs rest
        match cs2 with
        | c2 :: r2 =>
          if c2 = rbrace then some (.obj [], r2)
          else (parseMembers fuel cs2).map fun p => (.obj p.1, p.2)
        | [] => none
      else if c = '-' || c.isDigit then parseNum cs
      else
        match dropLit "null".toList cs with
        | some r => some (.null, r)
        | none =>
          match dropLit "true".toList cs with
          | some r => some (.bool true, r)
          | none =>
            match dropLit "false".toList cs with
            | some r => some (.bool false, r)
            | none => none

/-- Read the comma-separated elements of a non-empty array, up to and
including the closing bracket. -/
def parseElems : Nat → List Char → Option (List RawValue × List Char)
  | 0, _ => none
  | Nat.succ fuel, cs =>
    match parseVal fuel cs with
    | none => none
    | some (v, rest) =>
      match skipWs rest with
      | ',' :: r => (parseElems fuel r).map fun p => (v :: p.1, p.2)
      | ']' :: r => some ([v], r)
      | _ => none

/-- Read the members of a non-empty object, up to and including the
closing brace. -/
def parseMembers : Nat → List Char →
    Option (List (String × RawValue) × List Char)
  | 0, _ => none
  | Nat.succ fuel, cs0 =>
    match skipWs cs0 with
    | '"' :: rest =>
      match parseStrAux [] rest with
      | none => none
      | some (k, rest2) =>
        match skipWs rest2 with
        | ':' :: rest3 =>
          match parseVal fuel rest3 with
          | none => none
          | some (v, rest4) =>
            match skipWs rest4 with
            | [] => none
            | c :: r =>
              if c = ',' then
                (parseMembers fuel r).map fun p => ((k, v) :: p.1, p.2)
              else if c = rbrace then some ([(k, v)], r)
              else none
        | _ => none
    | _ => none

end

/-- Modelled from the spec: the JSON decode step of `fromjson`
(`json.Unmarshal` into `any`); `none` where Go reports a decode
error (malformed input or trailing garbage). -/
def jsonDecode (s : String) : Option RawValue :=
  match parseVal (s.length + 1) s.toList with
  | some (v, rest) => if (skipWs rest).isEmpty then some v else none
  | none => none

/-! ### The five built-in functions (`expr_funcs.go`)

Each Go function takes `args ...*EvaluationResult` and returns an
`*EvaluationResult`, panicking on the error paths; panics (and Go
runtime faults such as out-of-range indexing or a failed type
assertion) are embedded as `Except.error`. -/

/-- A boolean result Value: `EvaluationResult{b, &actionlint.BoolType{}}`. -/
def mkBool (b : Bool) : EvaluationResult :=
  ⟨.bool b, .bool⟩

/-- `contains(search, item)` from `expr_funcs.go`: panics unless given
exactly 2 arguments; primitive `search` does a (case-sensitive)
`strings.Contains` over the string coercions; Object gives `false`;
Array membership-tests primitive items via `Equals`; anything else
gives `false`. -/
def contains (args : List EvaluationResult) : Except String EvaluationResult :=
  match args with
  | [left, right] =>
    if left.primitive then
      if !right.primitive then .ok (mkBool false)
      else
        let ls := left.coerceString
        let rs := right.coerceString
        .ok (mkBool (goContainsStr ls rs))
    else
      match left.type with
      | .object => .ok (mkBool false)
      | .array =>
        if !right.primitive then .ok (mkBool false)
        else
          match left.coerceSlice with
          | none => .ok (mkBool false)
          | some s => .ok (mkBool (s.any fun v => right.equals v))
      | _ => .ok (mkBool false)
  | _ => .error "contains() requires exactly 2 arguments"

/-- `fromjson(text)` from `expr_funcs.go`: decodes the string-coerced
first argument; a decode error panics with a message embedding the
offending text; the decoded value is tagged by its dynamic shape; any
other shape (notably a top-level JSON null) panics with a message
naming only the Go type of the decoded value. -/
def fromjson (args : List EvaluationResult) : Except String EvaluationResult :=
  match args with
  | input :: _ =>
    let inputStr := input.coerceString
    match jsonDecode inputStr with
    | none =>
      .error ("unable to unmarshal `" ++ inputStr ++ "` fromjson: invalid JSON")
    | some v =>
      match v with
      | .arr _ => .ok ⟨v, .array⟩
      | .obj _ => .ok ⟨v, .object⟩
      | .str _ => .ok ⟨v, .string⟩
      | .num _ => .ok ⟨v, .number⟩
      | .bool _ => .ok ⟨v, .bool⟩
      | .null => .error "unknown type <nil> in fromjson"
  | [] => .error "index out of range"

/-- `join(args...)` from `expr_funcs.go`: a primitive first argument is
returned unchanged; otherwise the separator defaults to `","` (or the
string-coerced second argument), the first argument's payload is cast
to a slice (a failed cast is a Go panic), each element is wrapped with
its `getExprType` tag, string-coerced, and joined. -/
def join (args : List EvaluationResult) : Except String EvaluationResult :=
  match args with
  | [] => .error "index out of range"
  | a0 :: rest =>
    if a0.primitive then .ok a0
    else
      let separator :=
        match rest with
        | [] => ","
        | a1 :: _ => a1.coerceString
      match a0.value with
      | .arr ar =>
        .ok ⟨.str (String.intercalate separator
              (ar.map fun a => (EvaluationResult.mk a (getExprType a)).coerceString)),
          .string⟩
      | _ => .error "interface conversion: payload is not a slice"

/-- `endswith(a, b)` from `expr_funcs.go`. The source checks
`left.Primitive()` twice (the second check, after binding `right`,
inspects `left` again rather than `right`); the model mirrors that. -/
def endswith (args : List EvaluationResult) : Except String EvaluationResult :=
  match args with
  | left :: right :: _ =>
    if !left.primitive then .ok (mkBool false)
    else if !left.primitive then .ok (mkBool false)
    else
      let ls := left.coerceString
      let rs := right.coerceString
      .ok (mkBool (strEnds (lowerStr ls) (lowerStr rs)))
  | _ => .error "index out of range"

/-- `startswith(a, b)` from `expr_funcs.go`: `false` when either
operand is non-primitive, else a lowercased `strings.HasPrefix` test
over the string coercions. -/
def startswith (args : List EvaluationResult) : Except String EvaluationResult :=
  match args with
  | left :: right :: _ =>
    if !left.primitive then .ok (mkBool false)
    else if !right.primitive then .ok (mkBool false)
    else
      let ls := left.coerceString
      let rs := right.coerceString
      .ok (mkBool (strStarts (lowerStr ls) (lowerStr rs)))
  | _ => .error "index out of range"

/-! ### The function registry -/

/-- `funcDef`: arity contract plus implementation. A positive
`argsCount` must be matched exactly; a negative value means at least
`abs(argsCount)` arguments are required. -/
structure funcDef where
  argsCount : Int
  call : List EvaluationResult → Except String EvaluationResult

/-- The `functions` registry map from `expr_funcs.go`. -/
def functions : List (String × funcDef) :=
  [("contains", ⟨2, contains⟩),
   ("startswith", ⟨2, startswith⟩),
   ("endswith", ⟨2, endswith⟩),
   ("join", ⟨-1, join⟩),
   ("fromjson", ⟨1, fromjson⟩)]

/-- Name lookup in the registry. -/
def lookupFunc (name : String) : Option funcDef :=
  (functions.find? fun p => p.1 == name).map (·.2)

/-- Modelled from the spec: the evaluator's arity validation — exact
match when the descriptor's count is positive, at-least check (against
the absolute value) when it is negative. -/
def acceptsArgCount (d : funcDef) (n : Nat) : Bool :=
  if 0 < d.argsCount then decide ((n : Int) = d.argsCount)
  else decide (-d.argsCount ≤ (n : Int))

/-- The spec's table for `fromjson` (§4.5), stated from the spec's
words for comparison with the implementation: decoded arrays are tagged
Array, objects Object, strings String, numbers Number, booleans Bool
(a decoded null reaches no supported row; the Null tag here is a
placeholder for totality). -/
def specShapeTag : RawValue → TypeTag
  | .arr _ => .array
  | .obj _ => .object
  | .str _ => .string
  | .num _ => .number
  | .bool _ => .bool
  | .null => .null

/-! ### Claims -/

/-- A list is an occurrence at the front of itself followed by
anything. -/
theorem isPrefixOf_self_append (l t : List Char) :
    List.isPrefixOf l (l ++ t) = true := by
  rw [List.isPrefixOf_iff_prefix]
  exact List.prefix_append l t

/-- `listInfixOf` finds a needle sitting at the front of the haystack. -/
theorem listInfixOf_here (n t : List Char) : listInfixOf n (n ++ t) = true := by
  cases h : n ++ t with
  | nil =>
    rcases List.append_eq_nil.mp h with ⟨hn, _⟩
    subst hn
    simp [listInfixOf]
  | cons c cs =>
    rw [listInfixOf, ← h, isPrefixOf_self_append]
    simp

/-- `listInfixOf` is stable under extending the haystack on the left. -/
theorem listInfixOf_cons (n : List Char) (c : Char) (h : List Char)
    (hh : listInfixOf n h = true) : listInfixOf n (c :: h) = true := by
  rw [listInfixOf, hh]
  simp

/-- A string occurs in any string that embeds it between two others. -/
theorem goContainsStr_middle (a s b : String) :
    goContainsStr (a ++ s ++ b) s = true := by
  show listInfixOf s.toList (a ++ s ++ b).toList = true
  have hl : (a ++ s ++ b).toList = a.toList ++ (s.toList ++ b.toList) := by
    simp [String.toList, String.data_append]
  rw [hl]
  induction a.toList with
  | nil => simpa using listInfixOf_here s.toList b.toList
  | cons c cs ih => exact listInfixOf_cons _ c _ ih

/-- C1: the claim that `contains` on two primitive operands tests
substring containment case-insensitively fails on the code: `contains`
calls `strings.Contains` on the raw coercions without lowercasing
(despite the function's own comments), so `contains("HelloWorld",
"hello")` evaluates to `false` even though the lowercase of
`"HelloWorld"` does contain `"hello"`. -/
theorem contains_case_sensitive_at_failing_input :
    contains [⟨.str "HelloWorld", .string⟩, ⟨.str "hello", .string⟩]
        = .ok (mkBool false)
      ∧ goContainsStr (lowerStr "HelloWorld") (lowerStr "hello")
        = true :=
  ⟨rfl, rfl⟩

/-- C2: the claim that `endswith` returns `false` whenever either
operand is non-primitive fails on the code: the source checks
`left.Primitive()` twice instead of checking `right`, so a
non-primitive right operand is string-coerced and suffix-tested; with
an Array right operand (coerced to `"Array"`) against the primitive
left operand `"HelloArray"`, the call returns `true`. -/
theorem endswith_skips_right_check_at_failing_input :
    endswith [⟨.str "HelloArray", .string⟩, ⟨.arr [], .array⟩]
        = .ok (mkBool true)
      ∧ EvaluationResult.primitive ⟨.arr [], .array⟩ = false :=
  ⟨rfl, rfl⟩

/-- C3 (counterexample): the registry descriptor for `join` carries
`argsCount = -1`, and under the evaluator's validation rule a call with
3 arguments is accepted, contradicting the claimed upper bound of 2. -/
theorem join_arity_accepts_three :
    ∃ d, lookupFunc "join" = some d ∧ acceptsArgCount d 3 = true ∧ ¬(3 ≤ 2) :=
  ⟨⟨-1, join⟩, rfl, rfl, by decide⟩

/-- C3 (amended): the registry descriptor for `join` encodes the arity
contract "at least 1, variadic": under the evaluator's validation rule
a call to `join` with argument count `n` is accepted if and only if
`1 ≤ n`, with no upper bound. -/
theorem join_arity_at_least_one (n : Nat) :
    (lookupFunc "join").map (fun d => acceptsArgCount d n) = some true
      ↔ 1 ≤ n := by
  have h : lookupFunc "join" = some ⟨-1, join⟩ := rfl
  rw [h]
  simp only [Option.map_some, Option.some.injEq, acceptsArgCount]
  norm_num

/-- C3 witness: `join` with a single argument is accepted. -/
theorem join_arity_at_least_one_witness :
    (lookupFunc "join").map (fun d => acceptsArgCount d 1) = some true :=
  (join_arity_at_least_one 1).mpr (by decide)

/-- C4: on an Array-typed `search` whose element sequence is `es`,
`contains(search, item)` is the Bool Value `false` for non-primitive
`item`, and otherwise is `true` exactly when some element of `es`
(scanned in order, stopping at the first hit) equals `item` via
`Equals`. -/
theorem contains_array_membership (search item : EvaluationResult)
    (es : List EvaluationResult)
    (htype : search.type = .array) (hslice : search.coerceSlice = some es) :
    contains [search, item]
      = .ok (mkBool (item.primitive && es.any fun v => item.equals v)) := by
  have hp : search.primitive = false := by
    simp [EvaluationResult.primitive, htype]
  cases hip : item.primitive <;>
    simp [contains, hp, htype, hslice, hip]

/-- C4 witness: membership of `"a"` in the array `["a"]`. -/
theorem contains_array_membership_witness :
    contains [⟨.arr [.str "a"], .array⟩, ⟨.str "a", .string⟩]
      = .ok (mkBool ((EvaluationResult.mk (.str "a") .string).primitive
          && [(⟨.str "a", .string⟩ : EvaluationResult)].any
               fun v => EvaluationResult.equals ⟨.str "a", .string⟩ v)) :=
  contains_array_membership _ _ _ rfl rfl

/-- C6: `join` on an argument list whose first element is a primitive
Value returns that Value itself — same payload, same type tag, no
string coercion. -/
theorem join_identity_on_primitive (v : EvaluationResult)
    (rest : List EvaluationResult) (h : v.primitive = true) :
    join (v :: rest) = .ok v := by
  simp [join, h]

/-- C6 witness: `join("scalar")` is the identity. -/
theorem join_identity_on_primitive_witness :
    join [⟨.str "scalar", .string⟩] = .ok ⟨.str "scalar", .string⟩ :=
  join_identity_on_primitive _ _ rfl

/-- C7: on a non-primitive first argument with array payload `l`,
`join` returns a String Value concatenating the per-element string
coercions (each element re-tagged by `getExprType`) in array order,
separated by `","` when no second argument is supplied and by the
string coercion of the second argument otherwise. -/
theorem join_array_concat (a0 : EvaluationResult)
    (rest : List EvaluationResult) (l : List RawValue)
    (hp : a0.primitive = false) (hv : a0.value = .arr l) :
    join (a0 :: rest)
      = .ok ⟨.str (String.intercalate
            (match rest with
             | [] => ","
             | a1 :: _ => a1.coerceString)
            (l.map fun a => (EvaluationResult.mk a (getExprType a)).coerceString)),
          .string⟩ := by
  cases rest <;> simp [join, hp, hv]

/-- C7 witness: `join(["a","b"], "-")`. -/
theorem join_array_concat_witness :
    join [⟨.arr [.str "a", .str "b"], .array⟩, ⟨.str "-", .string⟩]
      = .ok ⟨.str (String.intercalate
            (EvaluationResult.coerceString ⟨.str "-", .string⟩)
            ([RawValue.str "a", RawValue.str "b"].map
              fun a => (EvaluationResult.mk a (getExprType a)).coerceString)),
          .string⟩ :=
  join_array_concat _ _ _ rfl rfl

/-- C9: `startswith(a, b)` is the Bool Value that is `false` whenever
either operand is non-primitive and otherwise records whether the
lowercase of `CoerceString(a)` starts with the lowercase of
`CoerceString(b)`. -/
theorem startswith_spec (a b : EvaluationResult) :
    startswith [a, b]
      = .ok (mkBool (a.primitive && b.primitive
          && strStarts (lowerStr a.coerceString) (lowerStr b.coerceString))) := by
  cases ha : a.primitive <;> cases hb : b.primitive <;>
    simp [startswith, ha, hb]

/-- C10: on an Array-typed `search` for which `CoerceSlice` is absent,
`contains(search, item)` silently degrades to the Bool Value `false`
instead of failing. -/
theorem contains_array_absent_slice (search item : EvaluationResult)
    (htype : search.type = .array) (hslice : search.coerceSlice = none) :
    contains [search, item] = .ok (mkBool false) := by
  have hp : search.primitive = false := by
    simp [EvaluationResult.primitive, htype]
  cases hip : item.primitive <;>
    simp [contains, hp, htype, hslice, hip]

/-- C10 witness: an Array-tagged value with a non-array payload has no
coercible slice, and `contains` on it returns `false`. -/
theorem contains_array_absent_slice_witness :
    contains [⟨.str "x", .array⟩, ⟨.null, .null⟩] = .ok (mkBool false) :=
  contains_array_absent_slice _ _ rfl rfl

/-- C5 (counterexample): `fromjson("null")` does fail, but its failure
message `"unknown type <nil> in fromjson"` does not carry the offending
text `"null"`, contradicting the claim that every failure does. -/
theorem fromjson_null_message_lacks_text :
    fromjson [⟨.str "null", .string⟩]
        = .error "unknown type <nil> in fromjson"
      ∧ goContainsStr "unknown type <nil> in fromjson" "null" = false :=
  ⟨rfl, rfl⟩

/-- C5 (amended): `fromjson` fails exactly when the string-coerced
input fails to decode or decodes to a top-level JSON null; the
decode-error failures carry the offending text in their message, while
the unsupported-shape (null) failure names only the decoded Go type. -/
theorem fromjson_failure_characterization (input : EvaluationResult) :
    ((fromjson [input]).isOk = false
        ↔ jsonDecode input.coerceString = none
          ∨ jsonDecode input.coerceString = some .null)
      ∧ (jsonDecode input.coerceString = none →
          fromjson [input]
              = .error ("unable to unmarshal `" ++ input.coerceString
                  ++ "` fromjson: invalid JSON")
            ∧ goContainsStr ("unable to unmarshal `" ++ input.coerceString
                  ++ "` fromjson: invalid JSON") input.coerceString = true) := by
  constructor
  · cases hd : jsonDecode input.coerceString with
    | none => simp [fromjson, hd, Except.isOk, Except.toBool]
    | some v => cases v <;> simp [fromjson, hd, Except.isOk, Except.toBool]
  · intro hd
    exact ⟨by simp [fromjson, hd],
      goContainsStr_middle "unable to unmarshal `" input.coerceString
        "` fromjson: invalid JSON"⟩

/-- C5 witness: `fromjson("not json")` fails with a message embedding
the offending text. -/
theorem fromjson_failure_characterization_witness :
    fromjson [⟨.str "not json", .string⟩]
        = .error ("unable to unmarshal `" ++ "not json"
            ++ "` fromjson: invalid JSON")
      ∧ goContainsStr ("unable to unmarshal `" ++ "not json"
            ++ "` fromjson: invalid JSON") "not json" = true :=
  (fromjson_failure_characterization ⟨.str "not json", .string⟩).2 rfl

/-- C8: whenever JSON decoding of the string-coerced input succeeds
with a supported (non-null) shape, `fromjson` returns the decoded data
tagged per the spec's shape table: arrays as Array, objects as Object,
strings as String, numbers as Number, booleans as Bool. -/
theorem fromjson_tag_matches_shape (input : EvaluationResult)
    (jv : RawValue) (hd : jsonDecode input.coerceString = some jv)
    (hn : jv ≠ .null) :
    fromjson [input] = .ok ⟨jv, specShapeTag jv⟩ := by
  cases jv with
  | null => exact absurd rfl hn
  | bool b => simp [fromjson, hd, specShapeTag]
  | num n => simp [fromjson, hd, specShapeTag]
  | str s => simp [fromjson, hd, specShapeTag]
  | arr l => simp [fromjson, hd, specShapeTag]
  | obj l => simp [fromjson, hd, specShapeTag]

/-- C8 witness: `fromjson("[1,2,3]")` yields an Array-tagged Value with
the three decoded Number elements. -/
theorem fromjson_tag_matches_shape_witness :
    fromjson [⟨.str "[1,2,3]", .string⟩]
      = .ok ⟨.arr [.num 1, .num 2, .num 3],
          specShapeTag (.arr [.num 1, .num 2, .num 3])⟩ :=
  fromjson_tag_matches_shape _ _ rfl (fun h => RawValue.noConfusion h)

end ActionlintInterp
